import Mathlib

/-!
Verification development for the node-pg-migrate migration runner.

The definitions below are a shallow embedding of the TypeScript sources:
the migration builder (src/migration-builder.ts part of src/src/migration.ts),
the Migration record (Migration class in src/src/migration.ts), the runner
(default export in src/src/operations/schemas.ts) and the SQL value escaping
helper (escapeValue in the utils part of src/src/migration.ts).

Conventions of the embedding:
  - JavaScript strings are Lean String values; where character-level
    reasoning is needed (escapeValue) the List Char view is used.
  - JavaScript numbers that the code treats as integers (counts, timestamps)
    are Lean Int values; an undefined option is Option.none.  The code
    compares a number against an undefined count with >=, which in
    JavaScript yields false (NaN comparison); the embedding encodes that
    comparison result explicitly.
  - Fallible code is embedded with Except String; thrown errors carry the
    message built at the throw site.
  - The asynchronous runner is embedded as a sequential interpreter over an
    abstract database environment.  Every database round trip is recorded as
    an event, so temporal claims (what was issued before a failure) become
    statements about the emitted event trace.
-/

namespace PgMigrate

/-! ## Migration builder (MigrationBuilder in src/src/migration.ts)

A builder-context operation call is abstracted by the results its forward
and reverse functions would produce at the concrete arguments of the call:
fwdResult is operation(...args) and revResult is operation.reverse(...args)
when the operation carries a reverse function, none otherwise.  A result
that is a single SQL string in the source is a singleton list here, since
this._steps.concat flattens string and string[] results alike. -/

structure Call where
  name : String
  fwdResult : List String
  revResult : Option (List String)
deriving DecidableEq, Repr

/-- State of a MigrationBuilder: the accumulated _steps and the
_REVERSE_MODE flag. -/
structure MBState where
  steps : List String
  reverseMode : Bool
deriving DecidableEq, Repr

/-- Embeds the wrap closure in the MigrationBuilder constructor: in reverse
mode an operation without a reverse function throws before anything is
appended; otherwise the (reverse or forward) result is concatenated onto
_steps.  The returned Option String is the thrown error, and the returned
state is the builder state after the call (unchanged when it throws). -/
def wrapCall (st : MBState) (c : Call) : MBState × Option String :=
  if st.reverseMode then
    match c.revResult with
    | none =>
      (st, some ("Impossible to automatically infer down migration for \"pgm." ++ c.name ++ "()\""))
    | some r => ({ st with steps := st.steps ++ r }, none)
  else
    ({ st with steps := st.steps ++ c.fwdResult }, none)

/-- Runs a migration body, i.e. a sequence of builder operation calls,
threading the builder state and stopping at the first thrown error. -/
def runCalls (st : MBState) : List Call → MBState × Option String
  | [] => (st, none)
  | c :: cs =>
    match wrapCall st c with
    | (st2, none) => runCalls st2 cs
    | (st2, some e) => (st2, some e)

/-- Embeds MigrationBuilder.getSqlSteps: in reverse mode a reversed copy of
the accumulated steps, otherwise the steps themselves. -/
def getSqlSteps (st : MBState) : List String :=
  if st.reverseMode then st.steps.reverse else st.steps

/-! ## Transaction reconciliation (Migration._apply, src/src/migration.ts)

The statement list passed in already ends with the mark-as-run statement,
exactly as in the source where it is pushed before the wrapping happens.
The returned Bool records whether a warning was logged. -/

def applyWrap (singleTransaction usingTransaction : Bool) (steps : List String) :
    List String × Bool :=
  if !singleTransaction && usingTransaction then
    (["BEGIN;"] ++ steps ++ ["COMMIT;"], false)
  else if singleTransaction && !usingTransaction then
    (["COMMIT;"] ++ steps ++ ["BEGIN;"], true)
  else if !singleTransaction || !usingTransaction then
    (steps, true)
  else
    (steps, false)

/-! ## Migration record: action resolution and mark-as-run
(Migration._getAction, Migration._getMarkAsRun, Migration.apply)

An exported direction slot is undefined, explicitly disabled (false in the
source) or a function; functions are identified by a numeric id so that the
JavaScript identity comparisons (this.down === this.up, switch on the
action) are decidable. -/

inductive Direction where
  | up
  | down
deriving DecidableEq, Repr

def dirStr : Direction → String
  | .up => "up"
  | .down => "down"

inductive ActionSlot where
  | undef
  | disabled
  | fn (id : Nat)
deriving DecidableEq, Repr

structure MigActions where
  up : ActionSlot
  down : ActionSlot
deriving DecidableEq, Repr

/-- Mark-as-run statement for the down direction (DELETE form). -/
def deleteMarkSql (schema table name : String) : String :=
  "DELETE FROM \"" ++ schema ++ "\".\"" ++ table ++ "\" WHERE name=\x27" ++ name ++ "\x27;"

/-- Mark-as-run statement for the up direction (INSERT form). -/
def insertMarkSql (schema table name : String) : String :=
  "INSERT INTO \"" ++ schema ++ "\".\"" ++ table ++ "\" (name, run_on) VALUES (\x27" ++
    name ++ "\x27, NOW());"

def slotOf (m : MigActions) : Direction → ActionSlot
  | .up => m.up
  | .down => m.down

/-- Embeds Migration._getAction.  When direction is down and this.down is
undefined, this.down is first overwritten with this.up; the possibly updated
record is returned together with the resolved action (or the thrown
error). -/
def getAction (m : MigActions) (migName : String) (dir : Direction) :
    MigActions × Except String Nat :=
  let m2 := if dir = .down ∧ m.down = .undef then { m with down := m.up } else m
  match slotOf m2 dir with
  | .disabled =>
    (m2, .error ("User has disabled " ++ dirStr dir ++ " migration on file: " ++ migName))
  | .undef =>
    (m2, .error ("Unknown value for direction: " ++ dirStr dir ++ ". Is the migration " ++
      migName ++ " exporting a \x27" ++ dirStr dir ++ "\x27 function?"))
  | .fn id => (m2, .ok id)

/-- Embeds Migration._getMarkAsRun: a switch on the action that tests the
case this.down before the case this.up. -/
def getMarkAsRun (m : MigActions) (schema table migName : String) (actionId : Nat) :
    Except String String :=
  if m.down = .fn actionId then .ok (deleteMarkSql schema table migName)
  else if m.up = .fn actionId then .ok (insertMarkSql schema table migName)
  else .error "Unknown direction"

/-- Embeds the direction-dependent part of Migration.apply: resolve the
action, decide whether reverse mode is enabled on the fresh builder
(this.down === this.up after resolution), and compute the mark-as-run
statement the body will be followed by.  The body execution itself is the
builder model above. -/
def applyReverseAndMark (m : MigActions) (schema table migName : String) (dir : Direction) :
    Except String (Bool × String) :=
  match getAction m migName dir with
  | (_, .error e) => .error e
  | (m2, .ok act) =>
    match getMarkAsRun m2 schema table migName act with
    | .error e => .error e
    | .ok stmt => .ok (m2.down = m2.up, stmt)

/-! ## Runner data model (src/src/operations/schemas.ts)

A discovered migration as the runner manipulates it: its name and parsed
timestamp, the SQL steps its action accumulates in a fresh builder for the
direction being run (abstracting the body), the builder transaction flag
after the body completed, and the mark-as-run statement _getMarkAsRun
produces for it. -/

structure RMig where
  name : String
  timestamp : Int
  bodySteps : List String
  usingTransaction : Bool
  markStmt : String
deriving DecidableEq, Repr

structure ROpts where
  direction : Direction
  count : Option Int
  timestamp : Bool
  file : Option String
  checkOrder : Bool
  noLock : Bool
  singleTransaction : Bool
  dryRun : Bool
  fake : Bool
  schema : Option (List String)
  createSchema : Bool
  migrationsSchema : Option String
  createMigrationsSchema : Bool
  migrationsTable : String

/-- Embeds getSchemas from utils: keep the non-empty strings, defaulting to
the public schema. -/
def getSchemas (schema : Option (List String)) : List String :=
  let schemas := (schema.getD []).filter (fun s => s.length > 0)
  if schemas.isEmpty then ["public"] else schemas

/-- Embeds getMigrationTableSchema from utils. -/
def getMigrationTableSchema (o : ROpts) : String :=
  match o.migrationsSchema with
  | some s => s
  | none => (getSchemas o.schema).headD "public"

/-- Embeds checkOrder: walk the two lists positionally (i.e. over the
shorter length) and throw at the first name mismatch. -/
def checkOrder : List String → List RMig → Except String Unit
  | _, [] => .ok ()
  | [], _ => .ok ()
  | r :: rs, m :: ms =>
    if r = m.name then checkOrder rs ms
    else
      .error ("Not run migration " ++ m.name ++ " is preceding already run migration " ++ r)

/-- Embeds the JavaScript expression list.slice(-Math.abs(c)).  Since
Math.abs(0) is 0 and slice(-0) is slice(0), a zero count yields the whole
list; otherwise the last natAbs c elements. -/
def jsSliceLastAbs {α : Type} (l : List α) (c : Int) : List α :=
  if c.natAbs = 0 then l else l.drop (l.length - c.natAbs)

def mkDeletedMsg (names : List String) : String :=
  "Definitions of migrations " ++ String.intercalate ", " names ++ " have been deleted."

/-- The file-filter predicate !options.file || options.file === name. -/
def fileOk (file : Option String) (n : String) : Bool :=
  match file with
  | none => true
  | some f => f = n

/-- The downMigrations list of getMigrationsToRun: the recorded names
passing the file filter, each resolved to its Migration (Sum.inr) or kept
as a bare name when no migration with that name was discovered
(Sum.inl). -/
def downCandidates (o : ROpts) (runNames : List String) (migrations : List RMig) :
    List (Sum String RMig) :=
  (runNames.filter (fileOk o.file)).map (fun n =>
    match migrations.find? (fun m => m.name = n) with
    | some m => Sum.inr m
    | none => Sum.inl n)

/-- The toRun list of getMigrationsToRun for direction down: the timestamp
filter (with an undefined count comparing as false, and bare names never
passing the typeof object test) or the slice of the last Math.abs(count
or 1) entries, then reversed. -/
def downToRun (o : ROpts) (runNames : List String) (migrations : List RMig) :
    List (Sum String RMig) :=
  (if o.timestamp then
    (downCandidates o runNames migrations).filter (fun x =>
      match x, o.count with
      | Sum.inr m, some c => m.timestamp ≥ c
      | _, _ => false)
  else
    jsSliceLastAbs (downCandidates o runNames migrations) ((o.count.getD 1))).reverse

/-- The bare names (deleted migration files) of a selection. -/
def deletedOf (l : List (Sum String RMig)) : List String :=
  l.filterMap (fun x =>
    match x with
    | Sum.inl n => some n
    | Sum.inr _ => none)

/-- The resolved migrations of a selection. -/
def presentOf (l : List (Sum String RMig)) : List RMig :=
  l.filterMap (fun x =>
    match x with
    | Sum.inl _ => none
    | Sum.inr m => some m)

/-- Embeds getMigrationsToRun.  For direction down: the reversed selection
of recorded entries, where any bare names remaining in it make the call
throw with a message listing all of them.  For direction up: the
not-yet-run migrations passing the file filter, filtered by timestamp <=
count or truncated to the first Math.abs(count) (all of them when count is
undefined). -/
def getMigrationsToRun (o : ROpts) (runNames : List String) (migrations : List RMig) :
    Except String (List RMig) :=
  match o.direction with
  | .down =>
    if (deletedOf (downToRun o runNames migrations)).isEmpty then
      .ok (presentOf (downToRun o runNames migrations))
    else
      .error (mkDeletedMsg (deletedOf (downToRun o runNames migrations)))
  | .up =>
    let upMigrations := migrations.filter (fun m =>
      !(runNames.contains m.name) && fileOk o.file m.name)
    .ok
      (if o.timestamp then
        upMigrations.filter (fun m =>
          match o.count with
          | some c => m.timestamp ≤ c
          | none => false)
      else
        match o.count with
        | none => upMigrations
        | some c => upMigrations.take c.natAbs)

/-! ## Runner interpreter (default export of src/src/operations/schemas.ts)

The runner is an async function against a database connection.  It is
embedded as a sequential interpreter threading a trace of events (one per
database round trip, lock attempt or file-system read) and an Except result.
The database is abstracted by an environment: the outcome of loading the
migration files, the recorded history names, the answers to the
migrations-table introspection queries, whether the advisory lock is
obtained, and which SQL statements fail when executed. -/

inductive Ev where
  | connect
  | query (sql : String)
  | sel (sql : String)
  | lockAttempt
  | loadFiles
  | migQuery (name sql : String)
  | markQuery (name sql : String)
  | close
deriving DecidableEq, Repr

/-- True exactly for the events produced by executing a migration: a
statement of an applied migration or a fake-mode mark-as-run statement. -/
def isMigEv : Ev → Bool
  | .migQuery _ _ => true
  | .markQuery _ _ => true
  | _ => false

structure Env where
  loadResult : Except String (List RMig)
  runNames : List String
  tableExists : Bool
  hasPrimaryKey : Bool
  lockObtained : Bool
  queryFails : String → Bool

/-- A runner computation: from the trace so far to a result and the
extended trace. -/
def RunM (α : Type) : Type := List Ev → Except String α × List Ev

def rpure {α : Type} (a : α) : RunM α := fun evs => (.ok a, evs)

def rthrow {α : Type} (e : String) : RunM α := fun evs => (.error e, evs)

def rbind {α β : Type} (x : RunM α) (f : α → RunM β) : RunM β := fun evs =>
  match x evs with
  | (.ok a, evs2) => f a evs2
  | (.error e, evs2) => (.error e, evs2)

/-- Embeds a try/catch block: on failure of the body the handler runs with
the thrown message, on the trace as left by the body. -/
def rtry {α : Type} (x : RunM α) (h : String → RunM α) : RunM α := fun evs =>
  match x evs with
  | (.ok a, evs2) => (.ok a, evs2)
  | (.error e, evs2) => h e evs2

def remit (e : Ev) : RunM Unit := fun evs => (.ok (), evs ++ [e])

def rforM {α : Type} (f : α → RunM Unit) : List α → RunM Unit
  | [] => rpure ()
  | a :: as => rbind (f a) (fun _ => rforM f as)

/-- A db.query round trip: the statement is issued (event emitted) and the
call throws when the executor fails on it. -/
def dbQuery (env : Env) (sql : String) : RunM Unit :=
  rbind (remit (.query sql)) (fun _ =>
    if env.queryFails sql then rthrow ("query failed: " ++ sql) else rpure ())

/-- A db.select round trip; the rows come from the environment, so only
the event is recorded here. -/
def dbSelect (sql : String) : RunM Unit := remit (.sel sql)

/-- The quoted "schema"."table" name used in the bookkeeping SQL. -/
def fullTableNameOf (o : ROpts) : String :=
  "\"" ++ getMigrationTableSchema o ++ "\".\"" ++ o.migrationsTable ++ "\""

/-- Embeds ensureMigrationsTable: introspect, then add a missing primary
key or create the table; any failure is rewrapped. -/
def ensureMigrationsTable (o : ROpts) (env : Env) : RunM Unit :=
  rtry
    (rbind (dbSelect ("SELECT table_name FROM information_schema.tables WHERE table_schema = \x27" ++
        getMigrationTableSchema o ++ "\x27 AND table_name = \x27" ++ o.migrationsTable ++ "\x27"))
      (fun _ =>
        if env.tableExists then
          rbind (dbSelect ("SELECT constraint_name FROM information_schema.table_constraints WHERE table_schema = \x27" ++
              getMigrationTableSchema o ++ "\x27 AND table_name = \x27" ++ o.migrationsTable ++
              "\x27 AND constraint_type = \x27PRIMARY KEY\x27"))
            (fun _ =>
              if env.hasPrimaryKey then rpure ()
              else dbQuery env ("ALTER TABLE " ++ fullTableNameOf o ++ " ADD PRIMARY KEY (id)"))
        else
          dbQuery env ("CREATE TABLE " ++ fullTableNameOf o ++
            " ( id SERIAL PRIMARY KEY, name varchar(255) NOT NULL, run_on timestamp NOT NULL)")))
    (fun e => rthrow ("Unable to ensure migrations table: " ++ e))

/-- Embeds lock: a pg_try_advisory_lock attempt, failing fast when the lock
is already held. -/
def lockDb (env : Env) : RunM Unit :=
  rbind (remit .lockAttempt) (fun _ =>
    if env.lockObtained then rpure () else rthrow "Another migration is already running")

/-- One statement of a migration body: skipped entirely in dry-run mode,
otherwise issued and failing when the executor fails on it. -/
def execMigStmt (o : ROpts) (env : Env) (migName sql : String) : RunM Unit :=
  if o.dryRun then rpure ()
  else
    rbind (remit (.migQuery migName sql)) (fun _ =>
      if env.queryFails sql then rthrow ("query failed: " ++ sql) else rpure ())

/-- Embeds Migration._apply for one migration: the builder steps followed by
the mark-as-run statement, wrapped by the transaction reconciliation, then
executed in order with short-circuit on the first failure. -/
def applyMig (o : ROpts) (env : Env) (m : RMig) : RunM Unit :=
  rforM (execMigStmt o env m.name)
    (applyWrap o.singleTransaction m.usingTransaction (m.bodySteps ++ [m.markStmt])).1

/-- Embeds Migration.markAsRun as used in fake mode: only the mark-as-run
statement is executed. -/
def markMig (env : Env) (m : RMig) : RunM Unit :=
  rbind (remit (.markQuery m.name m.markStmt)) (fun _ =>
    if env.queryFails m.markStmt then rthrow ("query failed: " ++ m.markStmt) else rpure ())

/-- Embeds the apply step of the runner: fake mode marks only; single
transaction mode wraps the whole batch in BEGIN/COMMIT and on any failure
issues ROLLBACK before rethrowing; otherwise each migration is applied on
its own. -/
def applyPhase (o : ROpts) (env : Env) (toRun : List RMig) : RunM Unit :=
  if o.fake then rforM (markMig env) toRun
  else if o.singleTransaction then
    rbind (dbQuery env "BEGIN") (fun _ =>
      rtry
        (rbind (rforM (applyMig o env) toRun) (fun _ => dbQuery env "COMMIT"))
        (fun err => rbind (dbQuery env "ROLLBACK") (fun _ => rthrow err)))
  else
    rforM (applyMig o env) toRun

/-- The optional schema creation and search-path step. -/
def schemaStep (o : ROpts) (env : Env) : RunM Unit :=
  match o.schema with
  | some schemaList =>
    let schemas := getSchemas (some schemaList)
    rbind
      (if o.createSchema then
        rforM (fun s => dbQuery env ("CREATE SCHEMA IF NOT EXISTS \"" ++ s ++ "\"")) schemas
      else rpure ())
      (fun _ => dbQuery env ("SET search_path TO " ++
        String.intercalate ", " (schemas.map (fun s => "\"" ++ s ++ "\""))))
  | none => rpure ()

/-- The optional migrations-schema creation step. -/
def migrationsSchemaStep (o : ROpts) (env : Env) : RunM Unit :=
  match o.migrationsSchema with
  | some ms =>
    if o.createMigrationsSchema then
      dbQuery env ("CREATE SCHEMA IF NOT EXISTS \"" ++ ms ++ "\"")
    else rpure ()
  | none => rpure ()

/-- Everything the runner does before the advisory lock: connect, schema
setup and migrations-table bookkeeping. -/
def setupSteps (o : ROpts) (env : Env) : RunM Unit :=
  rbind (remit .connect) (fun _ =>
  rbind (schemaStep o env) (fun _ =>
  rbind (migrationsSchemaStep o env) (fun _ =>
  ensureMigrationsTable o env)))

/-- Embeds the body of the runner default export, in source order: connect,
optional schema creation and search path, optional migrations schema,
ensure the migrations table, advisory lock unless disabled, load the
migration files and the recorded names, order check, pending-set
computation, then the apply step.  Returns the migrations actually run. -/
def runnerBody (o : ROpts) (env : Env) : RunM (List RMig) :=
  rbind (setupSteps o env) (fun _ =>
  rbind (if o.noLock then rpure () else lockDb env) (fun _ =>
  rbind (remit .loadFiles) (fun _ =>
  rbind
    (match env.loadResult with
     | .error e => rthrow ("Can\x27t get migration files: " ++ e)
     | .ok ms => rpure ms) (fun migrations =>
  rbind (dbSelect ("SELECT name FROM " ++ fullTableNameOf o ++ " ORDER BY run_on, id")) (fun _ =>
  rbind
    (if o.checkOrder then
      match checkOrder env.runNames migrations with
      | .error e => rthrow e
      | .ok _ => rpure ()
    else rpure ()) (fun _ =>
  rbind
    (match getMigrationsToRun o env.runNames migrations with
     | .error e => rthrow e
     | .ok l => rpure l) (fun toRun =>
  if toRun.isEmpty then rpure []
  else rbind (applyPhase o env toRun) (fun _ => rpure toRun))))))))

/-- The runner entry point: run the body on an empty trace; the finally
block closes the connection on every exit path. -/
def runner (o : ROpts) (env : Env) : Except String (List RMig) × List Ev :=
  let p := runnerBody o env []
  (p.1, p.2 ++ [Ev.close])

/-! ## escapeValue, string branch (utils in src/src/migration.ts)

The do-while loop tries the delimiters $pg1$, $pg2$, ... in order and stops
at the first one that does not occur inside the value.  The loop is embedded
as the least index with that property, which exists because a long enough
delimiter cannot be a substring. -/

/-- Decimal digit characters of n, most significant first, as JavaScript
template interpolation prints a number. -/
def natChars (n : Nat) : List Char :=
  ((Nat.digits 10 n).reverse).map Nat.digitChar

/-- The dollar-quote delimiter for index n. -/
def tagChars (n : Nat) : List Char :=
  '$' :: 'p' :: 'g' :: (natChars n ++ ['$'])

theorem tagChars_length (n : Nat) : (tagChars n).length = 4 + (natChars n).length := by
  simp [tagChars]
  omega

theorem natChars_length_pow (L : Nat) : (natChars (10 ^ L)).length = L + 1 := by
  unfold natChars
  rw [List.length_map, List.length_reverse]
  rw [Nat.digits_len 10 (10 ^ L) (by norm_num) (by positivity)]
  rw [Nat.log_pow (by norm_num)]

theorem escIndexExists (s : List Char) : ∃ k, ¬ tagChars (k + 1) <:+: s := by
  refine ⟨10 ^ s.length - 1, fun h => ?_⟩
  have hlen := h.length_le
  have h1 : (1 : Nat) ≤ 10 ^ s.length := Nat.one_le_pow _ _ (by norm_num)
  rw [Nat.sub_add_cancel h1] at hlen
  rw [tagChars_length, natChars_length_pow] at hlen
  omega

/-- The index the do-while loop in escapeValue settles on: the least index
of the search sequence 1, 2, 3, ... whose delimiter is not a substring of
the value. -/
def escIndex (s : List Char) : Nat :=
  Nat.find (escIndexExists s) + 1

/-- Embeds the string branch of escapeValue: the chosen delimiter wrapped
around the value. -/
def escapeString (s : List Char) : List Char :=
  tagChars (escIndex s) ++ s ++ tagChars (escIndex s)

/-! ## Claim-side selection for the down direction

For the refinement comparison of the down-direction pending-set
computation, the following definition mirrors the claim wording: recorded
names filtered to the named file, reduced to the last N recorded entries
when count-based, reversed, with a hard error listing the names whose
files are missing.  It differs from getMigrationsToRun only in the meaning
of the count: the claim reduces to the last N entries for every N,
including N = 0 selecting nothing. -/

/-- The last n elements of a list (the empty list for n = 0). -/
def lastN {α : Type} (l : List α) (n : Nat) : List α :=
  l.drop (l.length - n)

/-- Modelled from the claim wording: the reversed down-direction selection
with a count of N meaning exactly the last N recorded entries. -/
def claimDownToRun (o : ROpts) (runNames : List String) (migrations : List RMig) :
    List (Sum String RMig) :=
  (if o.timestamp then
    (downCandidates o runNames migrations).filter (fun x =>
      match x, o.count with
      | Sum.inr m, some c => m.timestamp ≥ c
      | _, _ => false)
  else
    lastN (downCandidates o runNames migrations) ((o.count.getD 1)).natAbs).reverse

/-- Modelled from the claim wording: the down-direction pending set with a
count of N meaning exactly the last N recorded entries. -/
def claimDownSelection (o : ROpts) (runNames : List String) (migrations : List RMig) :
    Except String (List RMig) :=
  if (deletedOf (claimDownToRun o runNames migrations)).isEmpty then
    .ok (presentOf (claimDownToRun o runNames migrations))
  else
    .error (mkDeletedMsg (deletedOf (claimDownToRun o runNames migrations)))

/-! ## Trace lemmas for the runner interpreter -/

/-- A computation is framed when its result and the events it appends do
not depend on the trace it starts from. -/
def Framed {α : Type} (x : RunM α) : Prop :=
  ∃ r new, ∀ evs, x evs = (r, evs ++ new)

theorem framed_rpure {α : Type} (a : α) : Framed (rpure a) :=
  ⟨.ok a, [], fun evs => by simp [rpure]⟩

theorem framed_rthrow {α : Type} (e : String) : Framed (rthrow (α := α) e) :=
  ⟨.error e, [], fun evs => by simp [rthrow]⟩

theorem framed_remit (e : Ev) : Framed (remit e) :=
  ⟨.ok (), [e], fun evs => by simp [remit]⟩

theorem framed_rbind {α β : Type} {x : RunM α} {f : α → RunM β}
    (hx : Framed x) (hf : ∀ a, Framed (f a)) : Framed (rbind x f) := by
  obtain ⟨r, new, h⟩ := hx
  cases r with
  | ok a =>
    obtain ⟨r2, new2, h2⟩ := hf a
    exact ⟨r2, new ++ new2, fun evs => by simp [rbind, h, h2]⟩
  | error e =>
    exact ⟨.error e, new, fun evs => by simp [rbind, h]⟩

theorem framed_rtry {α : Type} {x : RunM α} {h : String → RunM α}
    (hx : Framed x) (hh : ∀ e, Framed (h e)) : Framed (rtry x h) := by
  obtain ⟨r, new, hf⟩ := hx
  cases r with
  | ok a => exact ⟨.ok a, new, fun evs => by simp [rtry, hf]⟩
  | error e =>
    obtain ⟨r2, new2, h2⟩ := hh e
    exact ⟨r2, new ++ new2, fun evs => by simp [rtry, hf, h2]⟩

theorem framed_rforM {α : Type} {f : α → RunM Unit} :
    ∀ {l : List α}, (∀ a ∈ l, Framed (f a)) → Framed (rforM f l)
  | [], _ => framed_rpure ()
  | a :: as, h =>
    framed_rbind (h a (List.mem_cons_self a as))
      (fun _ => framed_rforM (fun b hb => h b (List.mem_cons_of_mem _ hb)))

theorem framed_dbQuery (env : Env) (sql : String) : Framed (dbQuery env sql) := by
  refine framed_rbind (framed_remit _) (fun _ => ?_)
  by_cases hc : env.queryFails sql
  · simpa [dbQuery, hc] using framed_rthrow (α := Unit) ("query failed: " ++ sql)
  · simpa [dbQuery, hc] using framed_rpure ()

theorem framed_execMigStmt (o : ROpts) (env : Env) (nm sql : String) :
    Framed (execMigStmt o env nm sql) := by
  by_cases hd : o.dryRun
  · simpa [execMigStmt, hd] using framed_rpure ()
  · have h2 : Framed (rbind (remit (Ev.migQuery nm sql)) (fun _ =>
        if env.queryFails sql then rthrow ("query failed: " ++ sql) else rpure ())) := by
      refine framed_rbind (framed_remit _) (fun _ => ?_)
      by_cases hc : env.queryFails sql
      · simpa [hc] using framed_rthrow (α := Unit) ("query failed: " ++ sql)
      · simpa [hc] using framed_rpure ()
    simpa [execMigStmt, hd] using h2

theorem framed_applyMig (o : ROpts) (env : Env) (m : RMig) :
    Framed (applyMig o env m) :=
  framed_rforM (fun _ _ => framed_execMigStmt o env m.name _)

/-- A setup computation: it succeeds and appends only events that are not
migration statements. -/
def CleanOk (x : RunM Unit) : Prop :=
  ∃ new, (∀ evs, x evs = (.ok (), evs ++ new)) ∧ ∀ ev ∈ new, isMigEv ev = false

theorem cleanOk_rpure : CleanOk (rpure ()) :=
  ⟨[], fun evs => by simp [rpure], by simp⟩

theorem cleanOk_remit {e : Ev} (he : isMigEv e = false) : CleanOk (remit e) :=
  ⟨[e], fun evs => by simp [remit], by simpa using he⟩

theorem cleanOk_rbind {x : RunM Unit} {f : Unit → RunM Unit}
    (hx : CleanOk x) (hf : CleanOk (f ())) : CleanOk (rbind x f) := by
  obtain ⟨new, h, hc⟩ := hx
  obtain ⟨new2, h2, hc2⟩ := hf
  refine ⟨new ++ new2, fun evs => by simp [rbind, h, h2], fun ev hev => ?_⟩
  rcases List.mem_append.mp hev with hm | hm
  · exact hc ev hm
  · exact hc2 ev hm

theorem cleanOk_dbQuery {env : Env} {sql : String} (h : env.queryFails sql = false) :
    CleanOk (dbQuery env sql) :=
  ⟨[.query sql], fun evs => by simp [dbQuery, rbind, remit, h, rpure], by simp [isMigEv]⟩

theorem cleanOk_dbSelect (sql : String) : CleanOk (dbSelect sql) :=
  cleanOk_remit (by simp [isMigEv])

theorem cleanOk_rforM {f : α → RunM Unit} :
    ∀ {l : List α}, (∀ a ∈ l, CleanOk (f a)) → CleanOk (rforM f l)
  | [], _ => cleanOk_rpure
  | a :: as, h =>
    cleanOk_rbind (h a (List.mem_cons_self a as))
      (cleanOk_rforM (fun b hb => h b (List.mem_cons_of_mem _ hb)))

theorem cleanOk_rtry {x : RunM Unit} {h : String → RunM Unit}
    (hx : CleanOk x) : CleanOk (rtry x h) := by
  obtain ⟨new, hf, hc⟩ := hx
  exact ⟨new, fun evs => by simp [rtry, hf], hc⟩

theorem cleanOk_lockDb {env : Env} (h : env.lockObtained = true) : CleanOk (lockDb env) :=
  ⟨[.lockAttempt], fun evs => by simp [lockDb, rbind, remit, h, rpure], by simp [isMigEv]⟩

theorem cleanOk_schemaStep (o : ROpts) (env : Env)
    (hq : ∀ s, env.queryFails s = false) : CleanOk (schemaStep o env) := by
  unfold schemaStep
  cases o.schema with
  | none => exact cleanOk_rpure
  | some schemaList =>
    refine cleanOk_rbind ?_ (cleanOk_dbQuery (hq _))
    by_cases hc : o.createSchema
    · simpa [hc] using cleanOk_rforM (fun s _ => cleanOk_dbQuery (hq _))
    · simpa [hc] using cleanOk_rpure

theorem cleanOk_migrationsSchemaStep (o : ROpts) (env : Env)
    (hq : ∀ s, env.queryFails s = false) : CleanOk (migrationsSchemaStep o env) := by
  unfold migrationsSchemaStep
  cases o.migrationsSchema with
  | none => exact cleanOk_rpure
  | some ms =>
    by_cases hc : o.createMigrationsSchema
    · simpa [hc] using cleanOk_dbQuery (hq _)
    · simpa [hc] using cleanOk_rpure

theorem cleanOk_ensureMigrationsTable (o : ROpts) (env : Env)
    (hq : ∀ s, env.queryFails s = false) : CleanOk (ensureMigrationsTable o env) := by
  unfold ensureMigrationsTable
  refine cleanOk_rtry (cleanOk_rbind (cleanOk_dbSelect _) ?_)
  by_cases ht : env.tableExists
  · simp only [ht, if_true]
    refine cleanOk_rbind (cleanOk_dbSelect _) ?_
    by_cases hp : env.hasPrimaryKey
    · simpa [hp] using cleanOk_rpure
    · simpa [hp] using cleanOk_dbQuery (hq _)
  · simpa [ht] using cleanOk_dbQuery (hq _)

theorem cleanOk_setupSteps (o : ROpts) (env : Env)
    (hq : ∀ s, env.queryFails s = false) : CleanOk (setupSteps o env) :=
  cleanOk_rbind (cleanOk_remit (by simp [isMigEv]))
    (cleanOk_rbind (cleanOk_schemaStep o env hq)
      (cleanOk_rbind (cleanOk_migrationsSchemaStep o env hq)
        (cleanOk_ensureMigrationsTable o env hq)))

/-! ## Builder lemmas and claim C1 -/

theorem runCalls_reverse_ok (g : Call → List String) :
    ∀ (cs : List Call) (l : List String), (∀ c ∈ cs, c.revResult = some (g c)) →
      runCalls ⟨l, true⟩ cs = (⟨l ++ (cs.map g).flatten, true⟩, none)
  | [], l, _ => by simp [runCalls]
  | c :: cs, l, h => by
    have hc := h c (List.mem_cons_self c cs)
    have ih := runCalls_reverse_ok g cs (l ++ g c) (fun x hx => h x (List.mem_cons_of_mem _ hx))
    simp [runCalls, wrapCall, hc, ih]

theorem join_map_singleton (f : Call → String) (g : Call → List String) :
    ∀ cs : List Call, (∀ c ∈ cs, g c = [f c]) → (cs.map g).flatten = cs.map f
  | [], _ => by simp
  | c :: cs, h => by
    have hc := h c (List.mem_cons_self c cs)
    have ih := join_map_singleton f g cs (fun x hx => h x (List.mem_cons_of_mem _ hx))
    simp [hc, ih]

/-- C1: for a migration run in reverse mode (the auto-inferred down of a
migration exporting only up) whose body calls only operations carrying a
reverse function, the builder appends each call's reverse result at call
time in original call order, getSqlSteps returns a reversed copy of the
accumulated steps, and hence when each call contributes one statement the
output is exactly the per-call reverse results in reverse call order. -/
theorem autoInferredDownReplaysReversesInReverseOrder
    (cs : List Call) (g : Call → List String)
    (hg : ∀ c ∈ cs, c.revResult = some (g c)) :
    runCalls ⟨[], true⟩ cs = (⟨(cs.map g).flatten, true⟩, none)
    ∧ getSqlSteps (runCalls ⟨[], true⟩ cs).1 = ((cs.map g).flatten).reverse
    ∧ ∀ f : Call → String, (∀ c ∈ cs, g c = [f c]) →
        getSqlSteps (runCalls ⟨[], true⟩ cs).1 = (cs.reverse).map f := by
  have h := runCalls_reverse_ok g cs [] hg
  simp only [List.nil_append] at h
  refine ⟨h, by simp [h, getSqlSteps], fun f hf => ?_⟩
  simp [h, getSqlSteps, join_map_singleton f g cs hf, List.map_reverse]

def c1CallCreateTable : Call :=
  ⟨"createTable", ["CREATE TABLE \"t1\" (c text);"], some ["DROP TABLE \"t1\";"]⟩

def c1CallAddColumns : Call :=
  ⟨"addColumns", ["ALTER TABLE \"t1\" ADD \"c2\" text;"],
    some ["ALTER TABLE \"t1\" DROP \"c2\";"]⟩

def c1Rev (c : Call) : List String := c.revResult.getD []

theorem autoInferredDownReplaysReversesInReverseOrder_witness :
    (∀ c ∈ [c1CallCreateTable, c1CallAddColumns], c.revResult = some (c1Rev c))
    ∧ runCalls ⟨[], true⟩ [c1CallCreateTable, c1CallAddColumns] =
        (⟨["DROP TABLE \"t1\";", "ALTER TABLE \"t1\" DROP \"c2\";"], true⟩, none)
    ∧ getSqlSteps (runCalls ⟨[], true⟩ [c1CallCreateTable, c1CallAddColumns]).1 =
        ["ALTER TABLE \"t1\" DROP \"c2\";", "DROP TABLE \"t1\";"] := by
  have h := autoInferredDownReplaysReversesInReverseOrder
    [c1CallCreateTable, c1CallAddColumns] c1Rev (by decide)
  exact ⟨by decide, by rw [h.1]; rfl, by rw [h.2.1]; rfl⟩

/-! ## Claim C6 -/

/-- C6: a builder operation invoked while reverse mode is active that
carries no reverse function throws immediately with an error naming the
operation, and the accumulated steps are unchanged. -/
theorem reverseModeWithoutReverseThrows (st : MBState) (c : Call)
    (hrev : st.reverseMode = true) (hnone : c.revResult = none) :
    wrapCall st c =
      (st, some ("Impossible to automatically infer down migration for \"pgm." ++
        c.name ++ "()\"")) := by
  simp [wrapCall, hrev, hnone]

def c6Call : Call := ⟨"addTypeValue", ["ALTER TYPE t ADD VALUE v;"], none⟩

theorem reverseModeWithoutReverseThrows_witness :
    wrapCall ⟨["S1;"], true⟩ c6Call =
      (⟨["S1;"], true⟩,
        some "Impossible to automatically infer down migration for \"pgm.addTypeValue()\"") :=
  reverseModeWithoutReverseThrows ⟨["S1;"], true⟩ c6Call rfl rfl

/-! ## Claim C4 -/

/-- C4: the transaction reconciliation of a single migration apply: outside
single-transaction mode a transaction-wanting migration is wrapped in
BEGIN/COMMIT without warning; in single-transaction mode a
transaction-disabling migration is wrapped in COMMIT/BEGIN with a warning;
outside single-transaction mode a transaction-disabling migration is left
unwrapped with a warning; in single-transaction mode a transaction-wanting
migration is left unwrapped without warning. -/
theorem transactionWrapCases (steps : List String) :
    applyWrap false true steps = (["BEGIN;"] ++ steps ++ ["COMMIT;"], false)
    ∧ applyWrap true false steps = (["COMMIT;"] ++ steps ++ ["BEGIN;"], true)
    ∧ applyWrap false false steps = (steps, true)
    ∧ applyWrap true true steps = (steps, false) :=
  ⟨rfl, rfl, rfl, rfl⟩

/-! ## Claim C8 -/

/-- C8: a migration whose up and down slots hold the identical function
runs apply of direction up with reverse mode enabled, and the mark-as-run
statement is the DELETE form, because the switch in _getMarkAsRun tests
the down case before the up case. -/
theorem identicalUpDownAppliesUpAsDelete (k : Nat) (schema table migName : String) :
    applyReverseAndMark ⟨.fn k, .fn k⟩ schema table migName .up =
      .ok (true, deleteMarkSql schema table migName) := by
  simp [applyReverseAndMark, getAction, slotOf, getMarkAsRun]

/-! ## Claim C10 -/

/-- C10: for every string value, the string branch of escapeValue wraps the
value in the delimiter of the smallest index at least 1 whose delimiter
does not occur inside the value; in particular the chosen delimiter is not
a substring of the enclosed value, and every smaller candidate is. -/
theorem escapeValueStringChoosesFreshDelimiter (s : List Char) :
    escapeString s = tagChars (escIndex s) ++ s ++ tagChars (escIndex s)
    ∧ 1 ≤ escIndex s
    ∧ ¬ tagChars (escIndex s) <:+: s
    ∧ ∀ m, 1 ≤ m → m < escIndex s → tagChars m <:+: s := by
  have hidx : escIndex s = Nat.find (escIndexExists s) + 1 := rfl
  refine ⟨rfl, by omega, Nat.find_spec (escIndexExists s), fun m h1 h2 => ?_⟩
  have hm : m - 1 < Nat.find (escIndexExists s) := by omega
  have hmin := Nat.find_min (escIndexExists s) hm
  have hsub : m - 1 + 1 = m := by omega
  rw [hsub] at hmin
  exact not_not.mp hmin

/-! ## Claim C5 -/

theorem checkOrder_first_mismatch :
    ∀ (common : List (String × RMig)), (∀ p ∈ common, p.1 = p.2.name) →
    ∀ (r : String) (rs : List String) (m : RMig) (ms : List RMig), r ≠ m.name →
    checkOrder (common.map Prod.fst ++ r :: rs) (common.map Prod.snd ++ m :: ms) =
      .error ("Not run migration " ++ m.name ++ " is preceding already run migration " ++ r)
  | [], _, r, rs, m, ms, hne => by simp [checkOrder, hne]
  | p :: common, h, r, rs, m, ms, hne => by
    have hp := h p (List.mem_cons_self p common)
    have ih := checkOrder_first_mismatch common
      (fun q hq => h q (List.mem_cons_of_mem _ hq)) r rs m ms hne
    simp [checkOrder, hp, ih]

theorem checkOrder_matched_prefix_ok :
    ∀ (common : List (String × RMig)), (∀ p ∈ common, p.1 = p.2.name) →
    (∀ rs, checkOrder (common.map Prod.fst ++ rs) (common.map Prod.snd) = .ok ())
    ∧ (∀ ms, checkOrder (common.map Prod.fst) (common.map Prod.snd ++ ms) = .ok ())
  | [], _ => by
    constructor <;> intro l <;> cases l <;> simp [checkOrder]
  | p :: common, h => by
    have hp := h p (List.mem_cons_self p common)
    have ih := checkOrder_matched_prefix_ok common (fun q hq => h q (List.mem_cons_of_mem _ hq))
    exact ⟨fun rs => by simp [checkOrder, hp, ih.1 rs], fun ms => by simp [checkOrder, hp, ih.2 ms]⟩

def c5migA : RMig := ⟨"A", 1, ["SA;"], true, "MA;"⟩

def c5migB : RMig := ⟨"B", 2, ["SB;"], true, "MB;"⟩

def c5migC : RMig := ⟨"C", 3, ["SC;"], true, "MC;"⟩

def c5opts : ROpts :=
  ⟨.up, none, false, none, true, false, false, false, false, none, false, none, false,
    "pgmigrations"⟩

def c5env : Env :=
  ⟨.ok [c5migA, c5migB, c5migC], ["A", "C"], true, true, true, fun _ => false⟩

/-- C5: with order checking enabled, the check walks the positions of the
shorter of the two lists and throws at the first index where the recorded
name differs from the discovered name, naming both (and does not throw
when the walked positions all match); in particular a runner invocation of
direction up with recorded history A, C and discovered files A, B, C fails
with the mismatch at position 1 before any migration statement is
issued. -/
theorem checkOrderFailsOnFirstMismatch :
    (∀ (common : List (String × RMig)), (∀ p ∈ common, p.1 = p.2.name) →
      ∀ (r : String) (rs : List String) (m : RMig) (ms : List RMig), r ≠ m.name →
      checkOrder (common.map Prod.fst ++ r :: rs) (common.map Prod.snd ++ m :: ms) =
        .error ("Not run migration " ++ m.name ++ " is preceding already run migration " ++ r))
    ∧ (∀ (common : List (String × RMig)), (∀ p ∈ common, p.1 = p.2.name) →
      ∀ rs, checkOrder (common.map Prod.fst ++ rs) (common.map Prod.snd) = .ok ())
    ∧ (runner c5opts c5env).1 =
        .error "Not run migration B is preceding already run migration C"
    ∧ ((runner c5opts c5env).2.filter isMigEv) = [] :=
  ⟨checkOrder_first_mismatch,
   fun common h rs => (checkOrder_matched_prefix_ok common h).1 rs,
   by rfl,
   by rfl⟩

theorem checkOrderFailsOnFirstMismatch_witness :
    checkOrder ["A", "C"] [c5migA, c5migB, c5migC] =
      .error "Not run migration B is preceding already run migration C" := by
  have h := checkOrderFailsOnFirstMismatch.1 [("A", c5migA)] (by decide)
    "C" [] c5migB [c5migC] (by decide)
  exact h

/-! ## Claim C9 -/

theorem jsSliceLastAbs_one {α : Type} (l : List α) (x : α) :
    jsSliceLastAbs (l ++ [x]) 1 = [x] := by
  unfold jsSliceLastAbs
  norm_num

/-- C9: a down run with no count and no timestamp filter selects exactly
the most recently recorded migration (slice(-1) of the recorded names),
and nothing when the recorded history is empty. -/
theorem downDefaultsToMostRecentOne :
    (∀ (o : ROpts) (ns : List String) (n : String) (ms : List RMig) (m : RMig),
      o.direction = .down → o.count = none → o.timestamp = false → o.file = none →
      ms.find? (fun x => x.name = n) = some m →
      getMigrationsToRun o (ns ++ [n]) ms = .ok [m])
    ∧ (∀ (o : ROpts) (ms : List RMig),
      o.direction = .down → o.count = none → o.timestamp = false → o.file = none →
      getMigrationsToRun o [] ms = .ok []) := by
  constructor
  · intro o ns n ms m hdir hcount hts hfile hfind
    have hfil : ∀ l : List String, l.filter (fileOk none) = l := fun l => by simp [fileOk]
    have hcand : downCandidates o (ns ++ [n]) ms =
        (ns.map (fun n2 =>
          match ms.find? (fun m2 => m2.name = n2) with
          | some m2 => Sum.inr m2
          | none => Sum.inl n2)) ++ [Sum.inr m] := by
      unfold downCandidates
      rw [hfile, hfil, List.map_append]
      simp [hfind]
    have htorun : downToRun o (ns ++ [n]) ms = [Sum.inr m] := by
      simp only [downToRun, hts, Bool.false_eq_true, if_false, hcand, hcount,
        Option.getD_none, jsSliceLastAbs_one, List.reverse_cons, List.reverse_nil,
        List.nil_append]
    simp [getMigrationsToRun, hdir, htorun, deletedOf, presentOf]
  · intro o ms hdir hcount hts hfile
    have htorun : downToRun o [] ms = [] := by
      simp [downToRun, downCandidates, jsSliceLastAbs]
    simp [getMigrationsToRun, hdir, htorun, deletedOf, presentOf]

def c9opts : ROpts :=
  ⟨.down, none, false, none, false, false, false, false, false, none, false, none, false,
    "pgmigrations"⟩

def c9migA : RMig := ⟨"a", 1, ["SA;"], true, "MA;"⟩

def c9migB : RMig := ⟨"b", 2, ["SB;"], true, "MB;"⟩

theorem downDefaultsToMostRecentOne_witness :
    getMigrationsToRun c9opts (["a"] ++ ["b"]) [c9migA, c9migB] = .ok [c9migB] :=
  downDefaultsToMostRecentOne.1 c9opts ["a"] "b" [c9migA, c9migB] c9migB
    rfl rfl rfl rfl (by decide)


/-! ## Claim C2 -/

/-- The trace and result of a runner invocation whose migration-file
loading fails, assuming the stages before the load succeed: the setup
events, the lock attempt when locking is enabled, the file-system read,
then the load error. -/
theorem runner_loadFailure (o : ROpts) (env : Env) (e : String)
    (hload : env.loadResult = .error e)
    (hq : ∀ s, env.queryFails s = false)
    (hlock : env.lockObtained = true) :
    ∃ new, (∀ ev ∈ new, isMigEv ev = false)
    ∧ runner o env =
        (.error ("Can\x27t get migration files: " ++ e),
          (new ++ ((if o.noLock then [] else [Ev.lockAttempt]) ++ [Ev.loadFiles])) ++
            [Ev.close]) := by
  obtain ⟨new, hsetup, hclean⟩ := cleanOk_setupSteps o env hq
  refine ⟨new, hclean, ?_⟩
  have hlockStep : ∀ evs, (if o.noLock then rpure () else lockDb env) evs =
      ((.ok () : Except String Unit), evs ++ (if o.noLock then [] else [Ev.lockAttempt])) := by
    intro evs
    by_cases hn : o.noLock
    · simp [hn, rpure]
    · simp [hn, lockDb, rbind, remit, hlock, rpure]
  have hbody : runnerBody o env [] =
      (.error ("Can\x27t get migration files: " ++ e),
        new ++ ((if o.noLock then [] else [Ev.lockAttempt]) ++ [Ev.loadFiles])) := by
    simp only [runnerBody, rbind, hsetup, hlockStep, remit, hload, rthrow, List.nil_append,
      List.append_assoc]
  unfold runner
  rw [hbody]

/-- C2 amended: a failure of migration-file loading is raised after the
migrations-table setup and after the advisory-lock acquisition (the lock
attempt is in the trace whenever locking is enabled), but before any
migration statement or mark-as-run statement is issued. -/
theorem loadFailureAfterLockBeforeMigrationSql (o : ROpts) (env : Env) (e : String)
    (hload : env.loadResult = .error e)
    (hq : ∀ s, env.queryFails s = false)
    (hlock : env.lockObtained = true) :
    (runner o env).1 = .error ("Can\x27t get migration files: " ++ e)
    ∧ ((runner o env).2.filter isMigEv) = []
    ∧ (o.noLock = false → Ev.lockAttempt ∈ (runner o env).2) := by
  obtain ⟨new, hclean, hrun⟩ := runner_loadFailure o env e hload hq hlock
  refine ⟨by rw [hrun], ?_, fun hn => ?_⟩
  · rw [hrun]
    simp only [List.filter_append]
    have h1 : new.filter isMigEv = [] := by
      rw [List.filter_eq_nil_iff]
      intro a ha
      simp [hclean a ha]
    rw [h1]
    by_cases hn : o.noLock <;> simp [hn, isMigEv]
  · rw [hrun]
    simp [hn]

def c2opts : ROpts :=
  ⟨.up, none, false, none, true, false, false, false, false, none, false, none, false,
    "pgmigrations"⟩

def c2env : Env := ⟨.error "ENOENT", [], false, false, true, fun _ => false⟩

/-- C2 counterexample: a run whose migration-file loading fails (missing
directory) in which the advisory lock was attempted and a SQL statement
(the bookkeeping CREATE TABLE) was issued before the failure surfaced,
contradicting the claim that no lock acquisition and no query precedes a
configuration error. -/
theorem loadFailureAfterLockBeforeMigrationSql_counterexample :
    (runner c2opts c2env).1 = .error "Can\x27t get migration files: ENOENT"
    ∧ Ev.lockAttempt ∈ (runner c2opts c2env).2
    ∧ Ev.query ("CREATE TABLE \"public\".\"pgmigrations\" ( id SERIAL PRIMARY KEY, " ++
        "name varchar(255) NOT NULL, run_on timestamp NOT NULL)") ∈ (runner c2opts c2env).2 :=
  ⟨by rfl, by decide, by decide⟩

theorem loadFailureAfterLockBeforeMigrationSql_witness :
    (runner c2opts c2env).1 = .error "Can\x27t get migration files: ENOENT"
    ∧ ((runner c2opts c2env).2.filter isMigEv) = []
    ∧ Ev.lockAttempt ∈ (runner c2opts c2env).2 := by
  have h := loadFailureAfterLockBeforeMigrationSql c2opts c2env "ENOENT"
    rfl (fun _ => rfl) rfl
  exact ⟨h.1, h.2.1, h.2.2 rfl⟩

/-! ## Claim C3 -/

theorem jsSliceLastAbs_subset {α : Type} (l : List α) (c : Int) : jsSliceLastAbs l c ⊆ l := by
  unfold jsSliceLastAbs
  split
  · exact fun x hx => hx
  · exact List.drop_subset _ _

theorem jsSliceLastAbs_eq_lastN {α : Type} (l : List α) (c : Int) (h : c.natAbs ≠ 0) :
    jsSliceLastAbs l c = lastN l c.natAbs := by
  unfold jsSliceLastAbs lastN
  rw [if_neg h]

theorem mem_downCandidates_inl {o : ROpts} {rn : List String} {ms : List RMig} {n : String}
    (h : Sum.inl n ∈ downCandidates o rn ms) :
    ms.find? (fun m => m.name = n) = none ∧ n ∈ rn := by
  unfold downCandidates at h
  obtain ⟨n2, hn2, hmap⟩ := List.mem_map.mp h
  cases hf : ms.find? (fun m => m.name = n2) with
  | some m =>
    rw [hf] at hmap
    simp at hmap
  | none =>
    rw [hf] at hmap
    simp only [Sum.inl.injEq] at hmap
    subst hmap
    exact ⟨hf, List.mem_of_mem_filter hn2⟩

theorem mem_downToRun_inl {o : ROpts} {rn : List String} {ms : List RMig} {n : String}
    (h : Sum.inl n ∈ downToRun o rn ms) : Sum.inl n ∈ downCandidates o rn ms := by
  unfold downToRun at h
  rw [List.mem_reverse] at h
  split at h
  · exact (List.mem_filter.mp h).1
  · exact jsSliceLastAbs_subset _ _ h

theorem downToRun_eq_claim (o : ROpts) (rn : List String) (ms : List RMig)
    (hc : o.count = none ∨ ∃ c, o.count = some c ∧ c ≠ 0) :
    downToRun o rn ms = claimDownToRun o rn ms := by
  unfold downToRun claimDownToRun
  congr 1
  by_cases hts : o.timestamp
  · simp [hts]
  · simp only [hts, Bool.false_eq_true, if_false]
    rcases hc with hnone | ⟨c, hsome, hne⟩
    · rw [hnone]
      simp only [Option.getD_none]
      exact jsSliceLastAbs_eq_lastN _ 1 (by norm_num)
    · rw [hsome]
      simp only [Option.getD_some]
      exact jsSliceLastAbs_eq_lastN _ c (Int.natAbs_ne_zero.mpr hne)

/-- The trace and result of a runner invocation whose down-selection fails
(missing files): the setup events, the lock attempt when locking is
enabled, the reads, then the selection error, with order checking off. -/
theorem runner_selectionFailure (o : ROpts) (env : Env) (ms : List RMig) (e : String)
    (hq : ∀ s, env.queryFails s = false)
    (hlock : env.lockObtained = true)
    (hload : env.loadResult = .ok ms)
    (hco : o.checkOrder = false)
    (hsel : getMigrationsToRun o env.runNames ms = .error e) :
    ∃ new, (∀ ev ∈ new, isMigEv ev = false)
    ∧ runner o env = (.error e,
        (new ++ ((if o.noLock then [] else [Ev.lockAttempt]) ++
          ([Ev.loadFiles] ++ [Ev.sel ("SELECT name FROM " ++ fullTableNameOf o ++
            " ORDER BY run_on, id")]))) ++ [Ev.close]) := by
  obtain ⟨new, hsetup, hclean⟩ := cleanOk_setupSteps o env hq
  refine ⟨new, hclean, ?_⟩
  have hlockStep : ∀ evs, (if o.noLock then rpure () else lockDb env) evs =
      ((.ok () : Except String Unit), evs ++ (if o.noLock then [] else [Ev.lockAttempt])) := by
    intro evs
    by_cases hn : o.noLock
    · simp [hn, rpure]
    · simp [hn, lockDb, rbind, remit, hlock, rpure]
  have hbody : runnerBody o env [] = (.error e,
      new ++ ((if o.noLock then [] else [Ev.lockAttempt]) ++
        ([Ev.loadFiles] ++ [Ev.sel ("SELECT name FROM " ++ fullTableNameOf o ++
          " ORDER BY run_on, id")]))) := by
    simp only [runnerBody, rbind, hsetup, hlockStep, remit, hload, rpure, dbSelect, hco,
      Bool.false_eq_true, if_false, hsel, rthrow, List.nil_append, List.append_assoc]
  unfold runner
  rw [hbody]

/-- C3 amended: for a down run, the pending set equals the claim-side
computation (file filter, last N recorded entries, reversed) whenever the
count is absent or nonzero (a count of exactly 0 selects all recorded
entries, a JavaScript slice(-0) artifact); every selection failure is an
error listing exactly the selected recorded names that resolve to no
discovered migration; and such a failure aborts the run before any
migration statement is issued. -/
theorem downSelectionLastNReversedFailsOnMissing :
    (∀ (o : ROpts) (rn : List String) (ms : List RMig),
      o.direction = .down →
      (o.count = none ∨ ∃ c, o.count = some c ∧ c ≠ 0) →
      getMigrationsToRun o rn ms = claimDownSelection o rn ms)
    ∧ (∀ (o : ROpts) (rn : List String) (ms : List RMig) (e : String),
      getMigrationsToRun o rn ms = .error e →
      ∃ deleted, deleted ≠ [] ∧ e = mkDeletedMsg deleted ∧
        ∀ n ∈ deleted, ms.find? (fun m => m.name = n) = none ∧ n ∈ rn)
    ∧ (∀ (o : ROpts) (env : Env) (ms : List RMig) (e : String),
      (∀ s, env.queryFails s = false) → env.lockObtained = true →
      env.loadResult = .ok ms → o.checkOrder = false →
      getMigrationsToRun o env.runNames ms = .error e →
      (runner o env).1 = .error e ∧ ((runner o env).2.filter isMigEv) = []) := by
  refine ⟨?_, ?_, ?_⟩
  · intro o rn ms hdir hc
    have ht := downToRun_eq_claim o rn ms hc
    simp [getMigrationsToRun, hdir, claimDownSelection, ht]
  · intro o rn ms e he
    cases hdir : o.direction with
    | up =>
      simp only [getMigrationsToRun, hdir] at he
      simp at he
    | down =>
      simp only [getMigrationsToRun, hdir] at he
      split at he
      · simp at he
      · next hne =>
        injection he with he2
        refine ⟨deletedOf (downToRun o rn ms), fun h0 => hne (by simp [h0]), he2.symm, ?_⟩
        intro n hn
        obtain ⟨x, hx, hmat⟩ := List.mem_filterMap.mp hn
        have hxinl : x = Sum.inl n := by
          cases x with
          | inl a => simpa using congrArg (fun y => (Sum.inl y : Sum String RMig)) (by simpa using hmat)
          | inr b => simp at hmat
        subst hxinl
        exact mem_downCandidates_inl (mem_downToRun_inl hx)
  · intro o env ms e hq hlock hload hco hsel
    obtain ⟨new, hclean, hrun⟩ := runner_selectionFailure o env ms e hq hlock hload hco hsel
    refine ⟨by rw [hrun], ?_⟩
    rw [hrun]
    simp only [List.filter_append]
    have h1 : new.filter isMigEv = [] := by
      rw [List.filter_eq_nil_iff]
      intro a ha
      simp [hclean a ha]
    rw [h1]
    by_cases hn : o.noLock <;> simp [hn, isMigEv]

def c3opts : ROpts :=
  ⟨.down, some 0, false, none, false, false, false, false, false, none, false, none, false,
    "pgmigrations"⟩

def c3migA : RMig := ⟨"a", 1, ["SA;"], true, "MA;"⟩

def c3migB : RMig := ⟨"b", 2, ["SB;"], true, "MB;"⟩

/-- C3 counterexample: with a down run of count 0 and recorded history a, b
the code selects all recorded migrations, most recent first, while the
claim (last 0 recorded entries) selects none. -/
theorem downSelectionLastNReversedFailsOnMissing_counterexample :
    getMigrationsToRun c3opts ["a", "b"] [c3migA, c3migB] = .ok [c3migB, c3migA]
    ∧ claimDownSelection c3opts ["a", "b"] [c3migA, c3migB] = .ok []
    ∧ getMigrationsToRun c3opts ["a", "b"] [c3migA, c3migB] ≠
        claimDownSelection c3opts ["a", "b"] [c3migA, c3migB] := by
  refine ⟨rfl, rfl, ?_⟩
  intro h
  rw [show getMigrationsToRun c3opts ["a", "b"] [c3migA, c3migB] = .ok [c3migB, c3migA]
        from rfl,
      show claimDownSelection c3opts ["a", "b"] [c3migA, c3migB] = .ok [] from rfl] at h
  simp at h

def c3wopts : ROpts :=
  ⟨.down, some 2, false, none, false, false, false, false, false, none, false, none, false,
    "pgmigrations"⟩

theorem downSelectionLastNReversedFailsOnMissing_witness :
    getMigrationsToRun c3wopts ["a", "b"] [c3migA, c3migB] =
      claimDownSelection c3wopts ["a", "b"] [c3migA, c3migB] :=
  downSelectionLastNReversedFailsOnMissing.1 c3wopts ["a", "b"] [c3migA, c3migB]
    rfl (Or.inr ⟨2, rfl, by norm_num⟩)

/-! ## Claim C7 -/

theorem rforM_execMigStmt_ok (o : ROpts) (env : Env) (nm : String)
    (hdry : o.dryRun = false) :
    ∀ (stmts : List String), (∀ s ∈ stmts, env.queryFails s = false) →
    ∀ evs, rforM (execMigStmt o env nm) stmts evs =
      (.ok (), evs ++ stmts.map (fun s => Ev.migQuery nm s))
  | [], _, evs => by simp [rforM, rpure]
  | s :: ss, h, evs => by
    have hs := h s (List.mem_cons_self s ss)
    have ih := rforM_execMigStmt_ok o env nm hdry ss
      (fun x hx => h x (List.mem_cons_of_mem _ hx)) (evs ++ [Ev.migQuery nm s])
    simp [rforM, rbind, execMigStmt, hdry, remit, hs, rpure, ih]

theorem applyMig_ok (o : ROpts) (env : Env) (m : RMig)
    (hdry : o.dryRun = false) (hsingle : o.singleTransaction = false)
    (husing : m.usingTransaction = true)
    (hok : ∀ s ∈ ["BEGIN;"] ++ (m.bodySteps ++ [m.markStmt]) ++ ["COMMIT;"],
      env.queryFails s = false) :
    ∀ evs, applyMig o env m evs =
      (.ok (), evs ++ (["BEGIN;"] ++ (m.bodySteps ++ [m.markStmt]) ++ ["COMMIT;"]).map
        (fun s => Ev.migQuery m.name s)) := by
  intro evs
  have hwrap : (applyWrap o.singleTransaction m.usingTransaction
      (m.bodySteps ++ [m.markStmt])).1 =
      ["BEGIN;"] ++ (m.bodySteps ++ [m.markStmt]) ++ ["COMMIT;"] := by
    rw [hsingle, husing]
    rfl
  unfold applyMig
  rw [hwrap]
  exact rforM_execMigStmt_ok o env m.name hdry _ hok evs

theorem rforM_execMigStmt_events (o : ROpts) (env : Env) (nm : String) :
    ∀ (stmts : List String), ∃ r new,
      (∀ evs, rforM (execMigStmt o env nm) stmts evs = (r, evs ++ new))
      ∧ ∀ ev ∈ new, ∃ s, ev = Ev.migQuery nm s
  | [] => ⟨.ok (), [], fun evs => by simp [rforM, rpure], by simp⟩
  | s :: ss => by
    obtain ⟨r, new, hf, hp⟩ := rforM_execMigStmt_events o env nm ss
    by_cases hd : o.dryRun
    · exact ⟨r, new, fun evs => by simp [rforM, rbind, execMigStmt, hd, rpure, hf], hp⟩
    · by_cases hq : env.queryFails s
      · refine ⟨.error ("query failed: " ++ s), [Ev.migQuery nm s], fun evs => ?_, ?_⟩
        · simp [rforM, rbind, execMigStmt, hd, hq, remit, rthrow]
        · intro ev hev
          simp only [List.mem_singleton] at hev
          exact ⟨s, hev⟩
      · refine ⟨r, Ev.migQuery nm s :: new, fun evs => ?_, ?_⟩
        · simp [rforM, rbind, execMigStmt, hd, hq, remit, rpure, hf]
        · intro ev hev
          rcases List.mem_cons.mp hev with h1 | h1
          · exact ⟨s, h1⟩
          · exact hp ev h1

theorem applyMig_events (o : ROpts) (env : Env) (m : RMig) :
    ∃ r new, (∀ evs, applyMig o env m evs = (r, evs ++ new))
      ∧ ∀ ev ∈ new, ∃ s, ev = Ev.migQuery m.name s := by
  obtain ⟨r, new, hf, hp⟩ := rforM_execMigStmt_events o env m.name
    (applyWrap o.singleTransaction m.usingTransaction (m.bodySteps ++ [m.markStmt])).1
  exact ⟨r, new, fun evs => by unfold applyMig; exact hf evs, hp⟩

theorem rforM_applyMig_events (o : ROpts) (env : Env) :
    ∀ (l : List RMig), ∃ r new,
      (∀ evs, rforM (applyMig o env) l evs = (r, evs ++ new))
      ∧ ∀ ev ∈ new, ∃ nm s, ev = Ev.migQuery nm s
  | [] => ⟨.ok (), [], fun evs => by simp [rforM, rpure], by simp⟩
  | m :: ms => by
    obtain ⟨r1, new1, hf1, hp1⟩ := applyMig_events o env m
    cases r1 with
    | error e =>
      refine ⟨.error e, new1, fun evs => by simp [rforM, rbind, hf1], fun ev hev => ?_⟩
      obtain ⟨s, hs⟩ := hp1 ev hev
      exact ⟨m.name, s, hs⟩
    | ok a =>
      obtain ⟨r2, new2, hf2, hp2⟩ := rforM_applyMig_events o env ms
      refine ⟨r2, new1 ++ new2, fun evs => by simp [rforM, rbind, hf1, hf2], fun ev hev => ?_⟩
      rcases List.mem_append.mp hev with h1 | h1
      · obtain ⟨s, hs⟩ := hp1 ev h1
        exact ⟨m.name, s, hs⟩
      · exact hp2 ev h1

theorem perMigrationFailure (o : ROpts) (env : Env)
    (hfake : o.fake = false) (hsingle : o.singleTransaction = false)
    (hdry : o.dryRun = false) :
    ∀ (pre : List RMig) (m : RMig) (rest : List RMig),
    (∀ p ∈ pre, p.usingTransaction = true ∧
      ∀ s ∈ ["BEGIN;"] ++ (p.bodySteps ++ [p.markStmt]) ++ ["COMMIT;"],
        env.queryFails s = false) →
    (∃ em trm, applyMig o env m [] = (.error em, trm)) →
    ∃ e tr, rforM (applyMig o env) (pre ++ m :: rest) [] = (.error e, tr)
      ∧ (∀ p ∈ pre, Ev.migQuery p.name "COMMIT;" ∈ tr)
      ∧ ∀ s, Ev.query s ∉ tr
  | [], m, rest, _, hm => by
    obtain ⟨em, trm, hm⟩ := hm
    obtain ⟨r, new, hf, hp⟩ := applyMig_events o env m
    have h0 : (Except.error em, trm) = ((r, new) : Except String Unit × List Ev) := by
      rw [← hm, hf []]
      simp
    refine ⟨em, trm, ?_, by simp, ?_⟩
    · simp only [List.nil_append, rforM, rbind, hm]
    · intro s hs
      have htr : trm = new := congrArg Prod.snd h0
      rw [htr] at hs
      obtain ⟨s2, hs2⟩ := hp _ hs
      simp at hs2
  | p :: pre, m, rest, hpre, hm => by
    have hp1 := hpre p (List.mem_cons_self p pre)
    have hPok := applyMig_ok o env p hdry hsingle hp1.1 hp1.2
    obtain ⟨e, tr, hrec, hcommits, hnoq⟩ :=
      perMigrationFailure o env hfake hsingle hdry pre m rest
        (fun q hq => hpre q (List.mem_cons_of_mem _ hq)) hm
    obtain ⟨r2, new2, hf2, hp2⟩ := rforM_applyMig_events o env (pre ++ m :: rest)
    have h0 : (Except.error e, tr) = ((r2, new2) : Except String Unit × List Ev) := by
      rw [← hrec, hf2 []]
      simp
    have hr2 : r2 = .error e := (congrArg Prod.fst h0).symm
    have htr2 : new2 = tr := (congrArg Prod.snd h0).symm
    refine ⟨e, (["BEGIN;"] ++ (p.bodySteps ++ [p.markStmt]) ++ ["COMMIT;"]).map
      (fun s => Ev.migQuery p.name s) ++ tr, ?_, ?_, ?_⟩
    · simp only [List.cons_append, rforM, rbind, hPok [], List.nil_append]
      have hfin := hf2 ((["BEGIN;"] ++ (p.bodySteps ++ [p.markStmt]) ++ ["COMMIT;"]).map
        (fun s => Ev.migQuery p.name s))
      rw [hr2, htr2] at hfin
      exact hfin
    · intro q hq
      rcases List.mem_cons.mp hq with hq1 | hq2
      · subst hq1
        refine List.mem_append.mpr (Or.inl ?_)
        simp
      · exact List.mem_append.mpr (Or.inr (hcommits q hq2))
    · intro s hs
      rcases List.mem_append.mp hs with h1 | h1
      · obtain ⟨s2, _, hev⟩ := List.mem_map.mp h1
        simp at hev
      · exact hnoq s h1

theorem singleTransactionRollback (o : ROpts) (env : Env) (toRun : List RMig)
    (hfake : o.fake = false) (hsingle : o.singleTransaction = true)
    (hbegin : env.queryFails "BEGIN" = false)
    (e : String) (tr : List Ev) (h : applyPhase o env toRun [] = (.error e, tr)) :
    ∃ pre, tr = pre ++ [Ev.query "ROLLBACK"] := by
  have hphase : applyPhase o env toRun =
      rbind (dbQuery env "BEGIN") (fun _ =>
        rtry
          (rbind (rforM (applyMig o env) toRun) (fun _ => dbQuery env "COMMIT"))
          (fun err => rbind (dbQuery env "ROLLBACK") (fun _ => rthrow err))) := by
    simp [applyPhase, hfake, hsingle]
  rw [hphase] at h
  have hb : dbQuery env "BEGIN" [] = (.ok (), [Ev.query "BEGIN"]) := by
    simp [dbQuery, rbind, remit, hbegin, rpure]
  simp only [rbind, hb] at h
  rcases hexp : (rbind (rforM (applyMig o env) toRun) (fun _ => dbQuery env "COMMIT"))
      [Ev.query "BEGIN"] with ⟨r, evs2⟩
  cases r with
  | ok a =>
    rw [rtry, hexp] at h
    simp at h
  | error err =>
    rw [rtry, hexp] at h
    by_cases hr : env.queryFails "ROLLBACK"
    · simp only [rbind, dbQuery, remit, hr, if_true, rthrow] at h
      exact ⟨evs2, ((Prod.mk.injEq _ _ _ _).mp h).2.symm⟩
    · simp only [rbind, dbQuery, remit, hr, Bool.false_eq_true, if_false, rpure, rthrow] at h
      exact ⟨evs2, ((Prod.mk.injEq _ _ _ _).mp h).2.symm⟩

/-- C7: in single-transaction mode, whenever the batch apply fails (after a
successful BEGIN), the last statement issued before the error propagates is
an explicit ROLLBACK; in per-migration mode, a failure at some migration
leaves the per-migration COMMIT of every previously applied migration in
the trace, no runner-level statement (in particular no ROLLBACK) is issued,
and the error propagates. -/
theorem transactionFailureHandling :
    (∀ (o : ROpts) (env : Env) (toRun : List RMig) (e : String) (tr : List Ev),
      o.fake = false → o.singleTransaction = true → env.queryFails "BEGIN" = false →
      applyPhase o env toRun [] = (.error e, tr) →
      ∃ pre, tr = pre ++ [Ev.query "ROLLBACK"])
    ∧ (∀ (o : ROpts) (env : Env) (pre : List RMig) (m : RMig) (rest : List RMig),
      o.fake = false → o.singleTransaction = false → o.dryRun = false →
      (∀ p ∈ pre, p.usingTransaction = true ∧
        ∀ s ∈ ["BEGIN;"] ++ (p.bodySteps ++ [p.markStmt]) ++ ["COMMIT;"],
          env.queryFails s = false) →
      (∃ em trm, applyMig o env m [] = (.error em, trm)) →
      ∃ e tr, applyPhase o env (pre ++ m :: rest) [] = (.error e, tr)
        ∧ (∀ p ∈ pre, Ev.migQuery p.name "COMMIT;" ∈ tr)
        ∧ ∀ s, Ev.query s ∉ tr) := by
  constructor
  · intro o env toRun e tr hfake hsingle hbegin h
    exact singleTransactionRollback o env toRun hfake hsingle hbegin e tr h
  · intro o env pre m rest hfake hsingle hdry hpre hm
    have hphase : applyPhase o env (pre ++ m :: rest) =
        rforM (applyMig o env) (pre ++ m :: rest) := by
      simp [applyPhase, hfake, hsingle]
    rw [hphase]
    exact perMigrationFailure o env hfake hsingle hdry pre m rest hpre hm

def c7aOpts : ROpts :=
  ⟨.up, none, false, none, false, false, true, false, false, none, false, none, false,
    "pgmigrations"⟩

def c7aEnv : Env := ⟨.ok [], [], true, true, true, fun s => s == "FAIL;"⟩

def c7mFail : RMig := ⟨"m1", 1, ["FAIL;"], true, "MK1;"⟩

def c7bOpts : ROpts :=
  ⟨.up, none, false, none, false, false, false, false, false, none, false, none, false,
    "pgmigrations"⟩

def c7bEnv : Env := ⟨.ok [], [], true, true, true, fun s => s == "FAIL;"⟩

def c7pOk : RMig := ⟨"p1", 1, ["S1;"], true, "MKP;"⟩

def c7mFail2 : RMig := ⟨"m2", 2, ["FAIL;"], true, "MK2;"⟩

theorem transactionFailureHandling_witness :
    (∃ pre, [Ev.query "BEGIN", Ev.migQuery "m1" "FAIL;", Ev.query "ROLLBACK"] =
      pre ++ [Ev.query "ROLLBACK"])
    ∧ (∃ e tr, applyPhase c7bOpts c7bEnv ([c7pOk] ++ c7mFail2 :: []) [] = (.error e, tr)
        ∧ (∀ p ∈ [c7pOk], Ev.migQuery p.name "COMMIT;" ∈ tr)
        ∧ ∀ s, Ev.query s ∉ tr) := by
  constructor
  · exact transactionFailureHandling.1 c7aOpts c7aEnv [c7mFail] "query failed: FAIL;"
      [Ev.query "BEGIN", Ev.migQuery "m1" "FAIL;", Ev.query "ROLLBACK"] rfl rfl rfl rfl
  · exact transactionFailureHandling.2 c7bOpts c7bEnv [c7pOk] c7mFail2 [] rfl rfl rfl
      (by decide)
      ⟨"query failed: FAIL;", [Ev.migQuery "m2" "BEGIN;", Ev.migQuery "m2" "FAIL;"], rfl⟩

end PgMigrate
